import Mathlib

/-!
Verification of the line-based Markdown to HTML converter
(`markdown2html.py`).  Lines are modelled as `List Char`; the Python
string operations used by the script (`startswith`, `strip`, slicing,
`count`, `re.sub` with non-greedy two-character delimiters, `hashlib.md5`)
are embedded as executable Lean functions, and the script's functions
(`md5_hash`, `remove_character`, `process_inline_formatting`, `heading`,
`list`, `convert_line`) plus the `__main__` driver loop are translated
one branch at a time.
-/

namespace Markdown2HTML

/-- Python `str.isspace` on the characters that can occur in a text line
(space, tab, newline, carriage return, vertical tab, form feed). -/
def pyIsSpace (c : Char) : Bool :=
  c == ' ' || c == '\t' || c == '\n' || c == '\r' || c == '\x0b' || c == '\x0c'

/-- Strip characters satisfying `p` from both ends of a list, like Python
`str.strip` with a character class. -/
def stripBoth (p : Char → Bool) (l : List Char) : List Char :=
  ((l.dropWhile p).reverse.dropWhile p).reverse

/-- Python `line.strip()`: remove surrounding whitespace. -/
def pyStrip (l : List Char) : List Char := stripBoth pyIsSpace l

/-- Python `line.strip('#')`: remove leading and trailing `'#'` characters. -/
def stripHash (l : List Char) : List Char := stripBoth (fun c => c == '#') l

/-- Python `line.startswith(pat)`: `startswith l pat` is true when `pat`
is a prefix of `l`. -/
def startswith : List Char → List Char → Bool
  | _, [] => true
  | [], _ :: _ => false
  | c :: cs, p :: ps => p == c && startswith cs ps

/-- Python `line.count(c)` for a single character `c`. -/
def ccount (c : Char) : List Char → Nat
  | [] => 0
  | a :: l => (if a = c then 1 else 0) + ccount c l

/-- Decimal digits of a natural number, with explicit fuel so that the
kernel can evaluate it (the fuel `n + 1` always suffices). -/
def natCharsGo : Nat → Nat → List Char
  | 0, _ => []
  | f + 1, n =>
    if n < 10 then [Char.ofNat (48 + n)]
    else natCharsGo f (n / 10) ++ [Char.ofNat (48 + n % 10)]

/-- Decimal rendering of a natural number, as produced by a Python
f-string `f"{n}"`. -/
def natChars (n : Nat) : List Char := natCharsGo (n + 1) n

/-- Number of occurrences of the exact line `t` in a list of output lines. -/
def countLine (t : List Char) : List (List Char) → Nat
  | [] => 0
  | l :: ls => (if l = t then 1 else 0) + countLine t ls

/-! ### `hashlib.md5` (RFC 1321), on the UTF-8 encoding of the content -/

/-- Python `content.encode()`: UTF-8 bytes of the character list. -/
def utf8Bytes : List Char → List Nat
  | [] => []
  | c :: cs =>
    (let n := c.toNat
     if n < 128 then [n]
     else if n < 2048 then [192 + n / 64, 128 + n % 64]
     else if n < 65536 then [224 + n / 4096, 128 + (n / 64) % 64, 128 + n % 64]
     else [240 + n / 262144, 128 + (n / 4096) % 64, 128 + (n / 64) % 64, 128 + n % 64])
    ++ utf8Bytes cs

/-- 2 to the 32nd power, the modulus of all MD5 word arithmetic. -/
def M32 : Nat := 4294967296

/-- MD5 sine-derived constant table `T[1..64]` (RFC 1321). -/
def kTable : List Nat :=
  [0xd76aa478, 0xe8c7b756, 0x242070db, 0xc1bdceee,
   0xf57c0faf, 0x4787c62a, 0xa8304613, 0xfd469501,
   0x698098d8, 0x8b44f7af, 0xffff5bb1, 0x895cd7be,
   0x6b901122, 0xfd987193, 0xa679438e, 0x49b40821,
   0xf61e2562, 0xc040b340, 0x265e5a51, 0xe9b6c7aa,
   0xd62f105d, 0x02441453, 0xd8a1e681, 0xe7d3fbc8,
   0x21e1cde6, 0xc33707d6, 0xf4d50d87, 0x455a14ed,
   0xa9e3e905, 0xfcefa3f8, 0x676f02d9, 0x8d2a4c8a,
   0xfffa3942, 0x8771f681, 0x6d9d6122, 0xfde5380c,
   0xa4beea44, 0x4bdecfa9, 0xf6bb4b60, 0xbebfbc70,
   0x289b7ec6, 0xeaa127fa, 0xd4ef3085, 0x04881d05,
   0xd9d4d039, 0xe6db99e5, 0x1fa27cf8, 0xc4ac5665,
   0xf4292244, 0x432aff97, 0xab9423a7, 0xfc93a039,
   0x655b59c3, 0x8f0ccc92, 0xffeff47d, 0x85845dd1,
   0x6fa87e4f, 0xfe2ce6e0, 0xa3014314, 0x4e0811a1,
   0xf7537e82, 0xbd3af235, 0x2ad7d2bb, 0xeb86d391]

/-- MD5 per-operation left-rotation amounts (RFC 1321). -/
def sTable : List Nat :=
  [7, 12, 17, 22, 7, 12, 17, 22, 7, 12, 17, 22, 7, 12, 17, 22,
   5, 9, 14, 20, 5, 9, 14, 20, 5, 9, 14, 20, 5, 9, 14, 20,
   4, 11, 16, 23, 4, 11, 16, 23, 4, 11, 16, 23, 4, 11, 16, 23,
   6, 10, 15, 21, 6, 10, 15, 21, 6, 10, 15, 21, 6, 10, 15, 21]

/-- 32-bit left rotation on a word represented as a `Nat` below `M32`. -/
def rotl (x s : Nat) : Nat := ((x <<< s) ||| (x >>> (32 - s))) % M32

/-- The MD5 round functions F, G, H, I selected by the operation index. -/
def md5F (i b c d : Nat) : Nat :=
  if i < 16 then (b &&& c) ||| ((b ^^^ 0xffffffff) &&& d)
  else if i < 32 then (d &&& b) ||| ((d ^^^ 0xffffffff) &&& c)
  else if i < 48 then b ^^^ c ^^^ d
  else c ^^^ (b ||| (d ^^^ 0xffffffff))

/-- The MD5 message-word index for operation `i`. -/
def md5G (i : Nat) : Nat :=
  if i < 16 then i
  else if i < 32 then (5 * i + 1) % 16
  else if i < 48 then (3 * i + 5) % 16
  else (7 * i) % 16

/-- One of the 64 MD5 operations on the state `(a, b, c, d)`. -/
def md5Round (m : List Nat) (st : Nat × Nat × Nat × Nat) (i : Nat) :
    Nat × Nat × Nat × Nat :=
  let a := st.1
  let b := st.2.1
  let c := st.2.2.1
  let d := st.2.2.2
  let f := (md5F i b c d + a + kTable.getD i 0 + m.getD (md5G i) 0) % M32
  (d, (b + rotl f (sTable.getD i 0)) % M32, b, c)

/-- MD5 compression of one 16-word chunk into the running state. -/
def md5Compress (st : Nat × Nat × Nat × Nat) (m : List Nat) :
    Nat × Nat × Nat × Nat :=
  let r := (List.range 64).foldl (md5Round m) st
  ((st.1 + r.1) % M32, (st.2.1 + r.2.1) % M32,
   (st.2.2.1 + r.2.2.1) % M32, (st.2.2.2 + r.2.2.2) % M32)

/-- The 8 little-endian bytes of the 64-bit message bit length. -/
def leLen (n : Nat) : List Nat :=
  [n % 256, (n >>> 8) % 256, (n >>> 16) % 256, (n >>> 24) % 256,
   (n >>> 32) % 256, (n >>> 40) % 256, (n >>> 48) % 256, (n >>> 56) % 256]

/-- MD5 padding: append `0x80`, zero bytes up to 56 mod 64, then the
little-endian bit length. -/
def padBytes (msg : List Nat) : List Nat :=
  msg ++ [128] ++ List.replicate ((55 + 64 - msg.length % 64) % 64) 0
      ++ leLen ((msg.length * 8) % (2 ^ 64))

/-- Split a byte list into 64-byte chunks (fuel-driven so the kernel can
evaluate it; the initial fuel `l.length` always suffices). -/
def splitChunksGo : Nat → List Nat → List (List Nat)
  | 0, _ => []
  | _, [] => []
  | fuel + 1, b :: rest => ((b :: rest).take 64) :: splitChunksGo fuel ((b :: rest).drop 64)

/-- Split a padded message into its 64-byte chunks. -/
def splitChunks (l : List Nat) : List (List Nat) := splitChunksGo l.length l

/-- Group four little-endian bytes into one 32-bit word, 16 words per chunk. -/
def toWords : List Nat → List Nat
  | b0 :: b1 :: b2 :: b3 :: rest =>
    (b0 + b1 * 256 + b2 * 65536 + b3 * 16777216) :: toWords rest
  | _ => []

/-- The four 32-bit MD5 state words of the digest of `content`. -/
def md5words (content : List Char) : Nat × Nat × Nat × Nat :=
  (splitChunks (padBytes (utf8Bytes content))).foldl
    (fun st chunk => md5Compress st (toWords chunk))
    (0x67452301, 0xefcdab89, 0x98badcfe, 0x10325476)

/-- Lowercase hexadecimal digit for a nibble. -/
def hexDigit (n : Nat) : Char :=
  if n < 10 then Char.ofNat (48 + n) else Char.ofNat (87 + n)

/-- Two lowercase hex characters of one byte. -/
def byteHex (b : Nat) : List Char := [hexDigit (b / 16), hexDigit (b % 16)]

/-- Hex rendering of one state word, least significant byte first. -/
def word2hex (w : Nat) : List Char :=
  byteHex (w % 256) ++ byteHex ((w >>> 8) % 256)
    ++ byteHex ((w >>> 16) % 256) ++ byteHex ((w >>> 24) % 256)

/-- Source `md5_hash(content)`: `hashlib.md5(content.encode()).hexdigest()`,
the 32-character lowercase hex digest. -/
def md5_hash (content : List Char) : List Char :=
  let st := md5words content
  word2hex st.1 ++ word2hex st.2.1 ++ word2hex st.2.2.1 ++ word2hex st.2.2.2

/-! ### `re.sub` with patterns `op(.*?)cl` for two-character delimiters

All four patterns used by the source (`\[\[(.*?)\]\]`, `\(\((.*?)\)\)`,
`\*\*(.*?)\*\*`, `__(.*?)__`) have a fixed two-character opening delimiter
`x y`, a non-greedy dot group (which cannot cross a newline), and a fixed
two-character closing delimiter `u v`.  `re.sub` scans left to right,
replaces each non-overlapping shortest match, and leaves unmatched
delimiters as literal text, advancing one character when no match starts
at the current position. -/

/-- Find the earliest closing delimiter `u v`: returns the (newline-free)
content before it and the remainder after it. -/
def findClose (u v : Char) : List Char → Option (List Char × List Char)
  | [] => none
  | [_] => none
  | a :: b :: rest =>
    if a == u && b == v then some ([], rest)
    else if a == '\n' then none
    else (findClose u v (b :: rest)).map (fun p => (a :: p.1, p.2))

/-- Whether the two adjacent characters `x y` occur somewhere in the list. -/
def hasPair (x y : Char) : List Char → Bool
  | [] => false
  | [_] => false
  | a :: b :: rest => (a == x && b == y) || hasPair x y (b :: rest)

/-- Whether the pattern `x y (.*?) u v` matches anywhere in the list: an
opening delimiter `x y` whose remainder holds a reachable closing
delimiter `u v` (an opener with no closer ahead does not match, exactly
as in `re.sub`). -/
def hasDelimMatch (x y u v : Char) : List Char → Bool
  | [] => false
  | [_] => false
  | a :: b :: rest =>
    (a == x && b == y && (findClose u v rest).isSome) || hasDelimMatch x y u v (b :: rest)

/-- Fuel-driven scanner for `re.sub(op(.*?)cl, f, line)`: on an opening
delimiter `x y`, replace the shortest newline-free span up to the closing
delimiter `u v` by `f` of the span, else advance one character.  The fuel
`line.length` always suffices. -/
def subssGo (x y u v : Char) (f : List Char → List Char) : Nat → List Char → List Char
  | _, [] => []
  | _, [c] => [c]
  | 0, l => l
  | fuel + 1, a :: b :: rest =>
    if a == x && b == y then
      match findClose u v rest with
      | some (content, r2) => f content ++ subssGo x y u v f fuel r2
      | none => a :: subssGo x y u v f fuel (b :: rest)
    else a :: subssGo x y u v f fuel (b :: rest)

/-- `re.sub` for the pattern `x y (.*?) u v` with replacement `f`. -/
def subss (x y u v : Char) (f : List Char → List Char) (l : List Char) : List Char :=
  subssGo x y u v f l.length l

/-- Source `remove_character(line)`: first replace every `[[CONTENT]]` span
by `md5_hash(CONTENT)`, then replace every `((CONTENT))` span by CONTENT
with all `'c'` and `'C'` characters removed. -/
def remove_character (line : List Char) : List Char :=
  subss '(' '(' ')' ')'
    (fun m => (m.filter (fun c => c != 'c')).filter (fun c => c != 'C'))
    (subss '[' '[' ']' ']' (fun m => md5_hash m) line)

/-- Source `process_inline_formatting(text)`: `**TEXT**` to `<b>TEXT</b>`,
then `__TEXT__` to `<em>TEXT</em>`. -/
def process_inline_formatting (text : List Char) : List Char :=
  subss '_' '_' '_' '_'
    (fun m => ['<', 'e', 'm', '>'] ++ m ++ ['<', '/', 'e', 'm', '>'])
    (subss '*' '*' '*' '*'
      (fun m => ['<', 'b', '>'] ++ m ++ ['<', '/', 'b', '>']) text)

/-! ### Heading classifier, list tracker, paragraph assembler, driver -/

/-- Source `heading(line)`: if the line starts with `'#'`, emit
`<h{level}>{content}</h{level}>` where `level = line.count('#')` and
`content = line.strip('#').strip()`; otherwise return the line unchanged. -/
def heading (line : List Char) : List Char :=
  if startswith line ['#'] then
    ['<', 'h'] ++ natChars (ccount '#' line) ++ ['>']
      ++ pyStrip (stripHash line)
      ++ ['<', '/', 'h'] ++ natChars (ccount '#' line) ++ ['>']
  else line

/-- Python `line.startswith(("- ", "* "))`, the list-item marker test. -/
def isListLine (line : List Char) : Bool :=
  startswith line ['-', ' '] || startswith line ['*', ' ']

/-- Python rendering of the `list_type` variable inside an f-string
(`"ul"`, `"ol"`, or `None`). -/
def optStr : Option (List Char) → List Char
  | some t => t
  | none => ['N', 'o', 'n', 'e']

/-- Source `list(line, in_list, list_type)`: the stateful list tracker,
returning the output line, the new in-list flag and the new list type. -/
def list (line : List Char) (in_list : Bool) (list_type : Option (List Char)) :
    List Char × Bool × Option (List Char) :=
  if isListLine line then
    if !in_list then
      let tag := if startswith line ['-', ' '] then ['u', 'l'] else ['o', 'l']
      (['<'] ++ tag ++ ['>', '\n', '<', 'l', 'i', '>']
         ++ pyStrip (line.drop 2) ++ ['<', '/', 'l', 'i', '>'], true, some tag)
    else
      (['<', 'l', 'i', '>'] ++ pyStrip (line.drop 2) ++ ['<', '/', 'l', 'i', '>'],
       true, list_type)
  else
    if in_list then
      (['<', '/'] ++ optStr list_type ++ ['>'] ++ line, false, none)
    else
      (line, in_list, list_type)

/-- One iteration of the loop body of source `convert_line`: the lines
appended for `line` and the updated `in_paragraph` flag. -/
def convert_line_step (line : List Char) (in_paragraph : Bool) :
    List (List Char) × Bool :=
  if startswith line ['<', 'h'] || startswith line ['<', '/', 'u', 'l', '>']
      || startswith line ['<', '/', 'o', 'l', '>'] then
    ((if in_paragraph then [['<', '/', 'p', '>']] else []) ++ [line], false)
  else if startswith line ['<', 'u', 'l'] || startswith line ['<', 'l', 'i']
      || startswith line ['<', 'o', 'l'] then
    ([line], false)
  else if pyStrip line == [] then
    ((if in_paragraph then [['<', '/', 'p', '>']] else []), false)
  else
    (if in_paragraph then [['<', 'b', 'r', ' ', '/', '>'], line]
     else [['<', 'p', '>'], line], true)

/-- The loop of source `convert_line`, threading the `in_paragraph` flag,
with the trailing `</p>` emitted when the flag is still set at the end. -/
def convert_line_aux : List (List Char) → Bool → List (List Char)
  | [], in_p => if in_p then [['<', '/', 'p', '>']] else []
  | l :: ls, in_p =>
    (convert_line_step l in_p).1 ++ convert_line_aux ls (convert_line_step l in_p).2

/-- Source `convert_line(lines)`: the paragraph assembler, starting with
`in_paragraph = False`. -/
def convert_line (lines : List (List Char)) : List (List Char) :=
  convert_line_aux lines false

/-- The per-line processing of the `__main__` loop before paragraph
assembly: inline rewriting followed by heading classification. -/
def prep (line : List Char) : List Char :=
  heading (process_inline_formatting (remove_character line))

/-- The `__main__` loop: process each raw line with `prep` and the list
tracker, collecting the processed lines and the final list state. -/
def processFold : List (List Char) → Bool → Option (List Char) →
    List (List Char) × Bool × Option (List Char)
  | [], in_list, list_type => ([], in_list, list_type)
  | l :: ls, in_list, list_type =>
    let r := list (prep l) in_list list_type
    let rest := processFold ls r.2.1 r.2.2
    (r.1 :: rest.1, rest.2.1, rest.2.2)

/-- The full `__main__` pipeline on a list of raw input lines: per-line
processing, paragraph assembly, and the final list flush
`</{list_type}>` when the list is still open. -/
def markdown2html (lines : List (List Char)) : List (List Char) :=
  let t := processFold lines false none
  convert_line t.1
    ++ (if t.2.1 then [['<', '/'] ++ optStr t.2.2 ++ ['>']] else [])

/-- Open/close event trace of the list tracker over a run, derived from
the tracker's own state transitions: `+1` when a list opens, `-1` when it
closes, `0` otherwise, with a final `-1` flush event when the input ends
while a list is open. -/
def levents : List (List Char) → Bool → Option (List Char) → List Int
  | [], in_list, _ => if in_list then [-1] else []
  | l :: ls, in_list, list_type =>
    let r := list (prep l) in_list list_type
    ((if r.2.1 then (1 : Int) else 0) - (if in_list then (1 : Int) else 0))
      :: levents ls r.2.1 r.2.2

/-- The full event trace of a pipeline run, from the initial state. -/
def leventsFull (lines : List (List Char)) : List Int := levents lines false none

/-! ### Helper lemmas about the embedded string primitives -/

theorem startswith_iff (p : List Char) : ∀ l, startswith l p = true ↔ ∃ t, l = p ++ t := by
  induction p with
  | nil => intro l; simp [startswith]
  | cons p ps ih =>
    intro l
    cases l with
    | nil => simp [startswith]
    | cons c cs =>
      simp only [startswith, Bool.and_eq_true, beq_iff_eq, ih, List.cons_append]
      constructor
      · rintro ⟨rfl, t, rfl⟩; exact ⟨t, rfl⟩
      · rintro ⟨t, h⟩
        injection h with h1 h2
        exact ⟨h1.symm, t, h2⟩

theorem startswith_append_of_le (K t P : List Char) (h : P.length ≤ K.length) :
    startswith (K ++ t) P = startswith K P := by
  induction P generalizing K with
  | nil => simp [startswith]
  | cons p ps ih =>
    cases K with
    | nil => simp at h
    | cons c cs =>
      show (p == c && startswith (cs ++ t) ps) = (p == c && startswith cs ps)
      rw [ih cs (by simpa using h)]

theorem startswith_take_of_append {K t P : List Char}
    (h : startswith (K ++ t) P = true) : startswith K (P.take K.length) = true := by
  induction K generalizing P with
  | nil => simp [startswith]
  | cons c cs ih =>
    cases P with
    | nil => simp [startswith]
    | cons p ps =>
      simp only [List.cons_append, startswith, Bool.and_eq_true] at h
      simp only [List.length_cons, List.take_succ_cons, startswith, Bool.and_eq_true]
      exact ⟨h.1, ih h.2⟩

theorem startswith_false_of_take (K t P : List Char)
    (h : startswith K (P.take K.length) = false) : startswith (K ++ t) P = false := by
  cases hsw : startswith (K ++ t) P with
  | false => rfl
  | true => rw [startswith_take_of_append hsw] at h; cases h

theorem ccount_append (c : Char) (a b : List Char) :
    ccount c (a ++ b) = ccount c a + ccount c b := by
  induction a with
  | nil => simp [ccount]
  | cons x xs ih => simp [ccount, ih]; omega

theorem ccount_replicate (c : Char) (n : Nat) : ccount c (List.replicate n c) = n := by
  induction n with
  | zero => rfl
  | succ n ih => simp [List.replicate_succ, ccount, ih, Nat.add_comm]

theorem ccount_eq_zero {c : Char} {l : List Char} (h : c ∉ l) : ccount c l = 0 := by
  induction l with
  | nil => rfl
  | cons x xs ih =>
    simp only [List.mem_cons, not_or] at h
    have hx : ¬x = c := fun hh => h.1 hh.symm
    simp [ccount, hx, ih h.2]

theorem dropWhile_all_false {p : Char → Bool} {l : List Char}
    (h : ∀ a ∈ l, p a = false) : List.dropWhile p l = l := by
  cases l with
  | nil => rfl
  | cons x xs =>
    rw [List.dropWhile_cons, if_neg]
    simp [h x (List.mem_cons_self _ _)]

theorem dropWhile_replicate_hash (L : Nat) (l : List Char) :
    List.dropWhile (fun c => c == '#') (List.replicate L '#' ++ l)
      = List.dropWhile (fun c => c == '#') l := by
  induction L with
  | zero => simp
  | succ n ih => simp [List.replicate_succ, List.dropWhile_cons, ih]

theorem pyStrip_cons_space (text : List Char) : pyStrip (' ' :: text) = pyStrip text := by
  unfold pyStrip stripBoth
  rw [List.dropWhile_cons, if_pos (by decide)]

/-! ### Claim C1 -/

/-- Claim C1: on the input line sequence
`["# Title", "", "Hello **world**", "More __text__"]` the full pipeline
(inline rewrite, heading classification, list tracking, paragraph
assembly, final flush) produces exactly
`["<h1>Title</h1>", "<p>", "Hello <b>world</b>", "<br />",
"More <em>text</em>", "</p>"]`. -/
theorem c1_pipeline_scenario :
    markdown2html ["# Title".data, "".data, "Hello **world**".data, "More __text__".data]
      = ["<h1>Title</h1>".data, "<p>".data, "Hello <b>world</b>".data,
         "<br />".data, "More <em>text</em>".data, "</p>".data] := by
  decide

/-! ### Claim C2 -/

/-- Claim C2 counterexample: the heading classifier does not use the
length of the leading run of `'#'` as the level; it counts every `'#'`
in the line.  On `"# a#b"` (leading run of length 1) it returns
`"<h2>a#b</h2>"`, not `"<h1>a#b</h1>"` as the claim states. -/
theorem c2_counterexample :
    heading "# a#b".data = "<h2>a#b</h2>".data
      ∧ heading "# a#b".data ≠ "<h1>a#b</h1>".data := by
  exact ⟨by decide, by decide⟩

/-- Claim C2 (amended): for every heading input line `"#"*L + " " + text`
with `L ≥ 1` and with `text` containing no `'#'` character, the heading
classifier returns exactly `<h{L}>{text}</h{L}>` with surrounding
whitespace stripped from `text` (any `L` is accepted verbatim, no
clamping).  When `text` does contain `'#'`, the level is the total count
of `'#'` in the line, not the leading-run length. -/
theorem c2_heading_amended (L : Nat) (text : List Char) (hL : 1 ≤ L) (ht : '#' ∉ text) :
    heading (List.replicate L '#' ++ ' ' :: text)
      = ['<', 'h'] ++ natChars L ++ ['>'] ++ pyStrip text
          ++ ['<', '/', 'h'] ++ natChars L ++ ['>'] := by
  obtain ⟨n, rfl⟩ : ∃ n, L = n + 1 := ⟨L - 1, by omega⟩
  have hsw : startswith (List.replicate (n + 1) '#' ++ ' ' :: text) ['#'] = true := by
    simp [List.replicate_succ, startswith]
  have hcount : ccount '#' (List.replicate (n + 1) '#' ++ ' ' :: text) = n + 1 := by
    rw [ccount_append, ccount_replicate]
    simp [ccount, ccount_eq_zero ht]
  have hstrip : stripHash (List.replicate (n + 1) '#' ++ ' ' :: text) = ' ' :: text := by
    unfold stripHash stripBoth
    rw [dropWhile_replicate_hash, List.dropWhile_cons, if_neg (by decide)]
    rw [dropWhile_all_false (p := fun c => c == '#') ?_]
    · simp
    · intro a ha
      rw [List.reverse_cons, List.mem_append] at ha
      rcases ha with ha | ha
      · simp only [beq_eq_false_iff_ne, ne_eq]
        exact fun hq => ht (hq ▸ List.mem_reverse.1 ha)
      · simp at ha; simp [ha]
  simp only [heading, hsw, if_true, hcount, hstrip, pyStrip_cons_space]

/-- Witness for the amended C2 at `L = 1`, `text = "Title"`. -/
theorem c2_heading_amended_witness :
    1 ≤ 1 ∧ '#' ∉ "Title".data ∧
      heading (List.replicate 1 '#' ++ ' ' :: "Title".data)
        = ['<', 'h'] ++ natChars 1 ++ ['>'] ++ pyStrip "Title".data
            ++ ['<', '/', 'h'] ++ natChars 1 ++ ['>'] :=
  ⟨by decide, by decide, c2_heading_amended 1 "Title".data (by decide) (by decide)⟩

/-! ### Claim C4 -/

/-- Claim C4: a line starting with `"- "` or `"* "` processed while a list
is already open yields `<li>{rest}</li>` (marker stripped, whitespace
trimmed) and leaves the list state unchanged: the open list type is kept
even when the marker differs from the one that opened the list. -/
theorem c4_list_continuation (line : List Char) (list_type : Option (List Char))
    (h : isListLine line = true) :
    list line true list_type
      = (['<', 'l', 'i', '>'] ++ pyStrip (line.drop 2) ++ ['<', '/', 'l', 'i', '>'],
         true, list_type) := by
  simp [list, h]

/-- Witness for C4: `"* b"` arriving while a `ul` is open emits
`<li>b</li>` and keeps the `ul` type. -/
theorem c4_list_continuation_witness :
    isListLine "* b".data = true ∧
      list "* b".data true (some ['u', 'l'])
        = (['<', 'l', 'i', '>'] ++ pyStrip (("* b".data).drop 2) ++ ['<', '/', 'l', 'i', '>'],
           true, some ['u', 'l']) :=
  ⟨by decide, c4_list_continuation "* b".data (some ['u', 'l']) (by decide)⟩

/-! ### Claim C5 -/

/-- Claim C5: while a paragraph is open, a classified line starting with
`<ul`, `<li`, or `<ol` clears the in-paragraph flag WITHOUT emitting a
closing `</p>` and is emitted unchanged, whereas a line starting with
`<h`, `</ul>`, or `</ol>` causes a `</p>` line to be emitted before the
line itself. -/
theorem c5_paragraph_markers (line : List Char) :
    ((startswith line ['<', 'u', 'l'] || startswith line ['<', 'l', 'i']
        || startswith line ['<', 'o', 'l']) = true →
      convert_line_step line true = ([line], false))
  ∧ ((startswith line ['<', 'h'] || startswith line ['<', '/', 'u', 'l', '>']
        || startswith line ['<', '/', 'o', 'l', '>']) = true →
      convert_line_step line true = ([['<', '/', 'p', '>'], line], false)) := by
  constructor
  · intro h
    simp only [Bool.or_eq_true] at h
    rcases h with (h | h) | h
    · obtain ⟨t, rfl⟩ := (startswith_iff _ _).1 h
      have g1 : startswith (['<', 'u', 'l'] ++ t) ['<', 'h'] = false := by
        rw [startswith_append_of_le _ _ _ (by decide)]; decide
      have g2 : startswith (['<', 'u', 'l'] ++ t) ['<', '/', 'u', 'l', '>'] = false := by
        apply startswith_false_of_take; decide
      have g3 : startswith (['<', 'u', 'l'] ++ t) ['<', '/', 'o', 'l', '>'] = false := by
        apply startswith_false_of_take; decide
      have g4 : startswith (['<', 'u', 'l'] ++ t) ['<', 'u', 'l'] = true := by
        rw [startswith_append_of_le _ _ _ (by decide)]; decide
      simp only [List.cons_append, List.nil_append] at g1 g2 g3 g4
      simp [convert_line_step, g1, g2, g3, g4]
    · obtain ⟨t, rfl⟩ := (startswith_iff _ _).1 h
      have g1 : startswith (['<', 'l', 'i'] ++ t) ['<', 'h'] = false := by
        rw [startswith_append_of_le _ _ _ (by decide)]; decide
      have g2 : startswith (['<', 'l', 'i'] ++ t) ['<', '/', 'u', 'l', '>'] = false := by
        apply startswith_false_of_take; decide
      have g3 : startswith (['<', 'l', 'i'] ++ t) ['<', '/', 'o', 'l', '>'] = false := by
        apply startswith_false_of_take; decide
      have g4 : startswith (['<', 'l', 'i'] ++ t) ['<', 'l', 'i'] = true := by
        rw [startswith_append_of_le _ _ _ (by decide)]; decide
      have g5 : startswith (['<', 'l', 'i'] ++ t) ['<', 'u', 'l'] = false := by
        rw [startswith_append_of_le _ _ _ (by decide)]; decide
      simp only [List.cons_append, List.nil_append] at g1 g2 g3 g4 g5
      simp [convert_line_step, g1, g2, g3, g4, g5]
    · obtain ⟨t, rfl⟩ := (startswith_iff _ _).1 h
      have g1 : startswith (['<', 'o', 'l'] ++ t) ['<', 'h'] = false := by
        rw [startswith_append_of_le _ _ _ (by decide)]; decide
      have g2 : startswith (['<', 'o', 'l'] ++ t) ['<', '/', 'u', 'l', '>'] = false := by
        apply startswith_false_of_take; decide
      have g3 : startswith (['<', 'o', 'l'] ++ t) ['<', '/', 'o', 'l', '>'] = false := by
        apply startswith_false_of_take; decide
      have g4 : startswith (['<', 'o', 'l'] ++ t) ['<', 'o', 'l'] = true := by
        rw [startswith_append_of_le _ _ _ (by decide)]; decide
      have g5 : startswith (['<', 'o', 'l'] ++ t) ['<', 'u', 'l'] = false := by
        rw [startswith_append_of_le _ _ _ (by decide)]; decide
      have g6 : startswith (['<', 'o', 'l'] ++ t) ['<', 'l', 'i'] = false := by
        rw [startswith_append_of_le _ _ _ (by decide)]; decide
      simp only [List.cons_append, List.nil_append] at g1 g2 g3 g4 g5 g6
      simp [convert_line_step, g1, g2, g3, g4, g5, g6]
  · intro h
    simp only [Bool.or_eq_true] at h
    rcases h with (h | h) | h
    · obtain ⟨t, rfl⟩ := (startswith_iff _ _).1 h
      have g1 : startswith (['<', 'h'] ++ t) ['<', 'h'] = true := by
        rw [startswith_append_of_le _ _ _ (by decide)]; decide
      simp only [List.cons_append, List.nil_append] at g1
      simp [convert_line_step, g1]
    · obtain ⟨t, rfl⟩ := (startswith_iff _ _).1 h
      have g1 : startswith (['<', '/', 'u', 'l', '>'] ++ t) ['<', 'h'] = false := by
        rw [startswith_append_of_le _ _ _ (by decide)]; decide
      have g2 : startswith (['<', '/', 'u', 'l', '>'] ++ t) ['<', '/', 'u', 'l', '>'] = true := by
        rw [startswith_append_of_le _ _ _ (by decide)]; decide
      simp only [List.cons_append, List.nil_append] at g1 g2
      simp [convert_line_step, g1, g2]
    · obtain ⟨t, rfl⟩ := (startswith_iff _ _).1 h
      have g1 : startswith (['<', '/', 'o', 'l', '>'] ++ t) ['<', 'h'] = false := by
        rw [startswith_append_of_le _ _ _ (by decide)]; decide
      have g2 : startswith (['<', '/', 'o', 'l', '>'] ++ t) ['<', '/', 'u', 'l', '>'] = false := by
        rw [startswith_append_of_le _ _ _ (by decide)]; decide
      have g3 : startswith (['<', '/', 'o', 'l', '>'] ++ t) ['<', '/', 'o', 'l', '>'] = true := by
        rw [startswith_append_of_le _ _ _ (by decide)]; decide
      simp only [List.cons_append, List.nil_append] at g1 g2 g3
      simp [convert_line_step, g1, g2, g3]

/-- Witness for C5 at `<li>x</li>` (opening marker, no `</p>` emitted)
and `<h1>t</h1>` (structural marker, `</p>` emitted first). -/
theorem c5_paragraph_markers_witness :
    ((startswith "<li>x</li>".data ['<', 'u', 'l'] || startswith "<li>x</li>".data ['<', 'l', 'i']
        || startswith "<li>x</li>".data ['<', 'o', 'l']) = true
      ∧ convert_line_step "<li>x</li>".data true = (["<li>x</li>".data], false))
  ∧ ((startswith "<h1>t</h1>".data ['<', 'h'] || startswith "<h1>t</h1>".data ['<', '/', 'u', 'l', '>']
        || startswith "<h1>t</h1>".data ['<', '/', 'o', 'l', '>']) = true
      ∧ convert_line_step "<h1>t</h1>".data true
          = ([['<', '/', 'p', '>'], "<h1>t</h1>".data], false)) :=
  ⟨⟨by decide, (c5_paragraph_markers "<li>x</li>".data).1 (by decide)⟩,
   ⟨by decide, (c5_paragraph_markers "<h1>t</h1>".data).2 (by decide)⟩⟩

/-! ### Claim C8 -/

/-- Claim C8: a non-blank line with no Markdown markers (it starts with
none of the structural tags the assembler recognises), given alone to the
paragraph assembler, is wrapped in a single paragraph:
`convert_line [L] = ["<p>", L, "</p>"]`. -/
theorem c8_single_paragraph (L : List Char)
    (h1 : startswith L ['<', 'h'] = false)
    (h2 : startswith L ['<', '/', 'u', 'l', '>'] = false)
    (h3 : startswith L ['<', '/', 'o', 'l', '>'] = false)
    (h4 : startswith L ['<', 'u', 'l'] = false)
    (h5 : startswith L ['<', 'l', 'i'] = false)
    (h6 : startswith L ['<', 'o', 'l'] = false)
    (h7 : pyStrip L ≠ []) :
    convert_line [L] = [['<', 'p', '>'], L, ['<', '/', 'p', '>']] := by
  have hb : (pyStrip L == []) = false := beq_eq_false_iff_ne.mpr h7
  simp [convert_line, convert_line_aux, convert_line_step, h1, h2, h3, h4, h5, h6, hb]

/-- Witness for C8 at `L = "Hello"`. -/
theorem c8_single_paragraph_witness :
    pyStrip "Hello".data ≠ [] ∧
      convert_line ["Hello".data] = [['<', 'p', '>'], "Hello".data, ['<', '/', 'p', '>']] :=
  ⟨by decide, c8_single_paragraph "Hello".data (by decide) (by decide) (by decide)
      (by decide) (by decide) (by decide) (by decide)⟩

/-! ### Claim C9 -/

/-- Claim C9: when the list tracker closes a list on a non-list line, the
combined output `</ul>{line}` (or `</ol>{line}`) starts with the closing
tag, so the paragraph assembler classifies it as a structural marker and
emits it unchanged — the trailing text is never wrapped in a paragraph
(no `<p>` or `<br />` is attached to it; at most a `</p>` closing a
previous paragraph precedes it). -/
theorem c9_close_line_structural (line : List Char) (lt : Option (List Char)) (p : Bool)
    (hlt : lt = some ['u', 'l'] ∨ lt = some ['o', 'l'])
    (h : isListLine line = false) :
    convert_line_step ((list line true lt).1) p
      = ((if p then [['<', '/', 'p', '>']] else []) ++ [(list line true lt).1], false) := by
  rcases hlt with rfl | rfl
  · have hout : (list line true (some ['u', 'l'])).1 = ['<', '/', 'u', 'l', '>'] ++ line := by
      simp [list, h, optStr]
    rw [hout]
    have g1 : startswith (['<', '/', 'u', 'l', '>'] ++ line) ['<', 'h'] = false := by
      rw [startswith_append_of_le _ _ _ (by decide)]; decide
    have g2 : startswith (['<', '/', 'u', 'l', '>'] ++ line) ['<', '/', 'u', 'l', '>'] = true := by
      rw [startswith_append_of_le _ _ _ (by decide)]; decide
    simp only [List.cons_append, List.nil_append] at g1 g2
    simp [convert_line_step, g1, g2]
  · have hout : (list line true (some ['o', 'l'])).1 = ['<', '/', 'o', 'l', '>'] ++ line := by
      simp [list, h, optStr]
    rw [hout]
    have g1 : startswith (['<', '/', 'o', 'l', '>'] ++ line) ['<', 'h'] = false := by
      rw [startswith_append_of_le _ _ _ (by decide)]; decide
    have g2 : startswith (['<', '/', 'o', 'l', '>'] ++ line) ['<', '/', 'u', 'l', '>'] = false := by
      rw [startswith_append_of_le _ _ _ (by decide)]; decide
    have g3 : startswith (['<', '/', 'o', 'l', '>'] ++ line) ['<', '/', 'o', 'l', '>'] = true := by
      rw [startswith_append_of_le _ _ _ (by decide)]; decide
    simp only [List.cons_append, List.nil_append] at g1 g2 g3
    simp [convert_line_step, g1, g2, g3]

/-- Witness for C9: closing a `ul` on the text line `"hello"` while a
paragraph is open. -/
theorem c9_close_line_structural_witness :
    isListLine "hello".data = false ∧
      convert_line_step ((list "hello".data true (some ['u', 'l'])).1) true
        = ((if true then [['<', '/', 'p', '>']] else [])
            ++ [(list "hello".data true (some ['u', 'l'])).1], false) :=
  ⟨by decide,
   c9_close_line_structural "hello".data (some ['u', 'l']) true (Or.inl rfl) (by decide)⟩

/-! ### Claim C3 -/

theorem levents_sum (ls : List (List Char)) :
    ∀ (il : Bool) (lt : Option (List Char)),
      (levents ls il lt).sum = -(if il then (1 : Int) else 0) := by
  induction ls with
  | nil => intro il lt; cases il <;> simp [levents]
  | cons l ls ih =>
    intro il lt
    simp only [levents, List.sum_cons, ih]
    cases (list (prep l) il lt).2.1 <;> cases il <;> simp

theorem levents_take (ls : List (List Char)) :
    ∀ (il : Bool) (lt : Option (List Char)) (n : Nat),
      0 ≤ (if il then (1 : Int) else 0) + ((levents ls il lt).take n).sum
      ∧ (if il then (1 : Int) else 0) + ((levents ls il lt).take n).sum ≤ 1 := by
  induction ls with
  | nil =>
    intro il lt n
    cases il <;> cases n <;> simp [levents]
  | cons l ls ih =>
    intro il lt n
    cases n with
    | zero => cases il <;> simp [levents]
    | succ n =>
      simp only [levents, List.take_succ_cons, List.sum_cons]
      have h := ih (list (prep l) il lt).2.1 (list (prep l) il lt).2.2 n
      generalize hb : (list (prep l) il lt).2.1 = b at h ⊢
      cases b <;> cases il <;> simp at h ⊢ <;> omega

/-- Claim C3: in the list tracker's open/close event trace over any input
run — `+1` when a list block opens, `-1` when one closes, with the final
end-of-input flush event — every prefix has between 0 and 1 more opens
than closes and the whole trace balances to 0, so every opened list is
closed exactly once; a close on a non-list line outputs the closing tag
immediately followed by that line's content, and a close at end of input
appends the final `</{type}>` line after all other processing. -/
theorem c3_list_open_close_balance : ∀ lines : List (List Char),
    ((leventsFull lines).sum = 0
      ∧ (∀ n, 0 ≤ ((leventsFull lines).take n).sum
          ∧ ((leventsFull lines).take n).sum ≤ 1))
  ∧ (∀ line lt, isListLine line = false →
      (list line true lt).1 = ['<', '/'] ++ optStr lt ++ ['>'] ++ line)
  ∧ (∀ ls, (processFold ls false none).2.1 = true →
      markdown2html ls
        = convert_line (processFold ls false none).1
            ++ [['<', '/'] ++ optStr (processFold ls false none).2.2 ++ ['>']]) := by
  intro lines
  refine ⟨⟨?_, ?_⟩, ?_, ?_⟩
  · have h := levents_sum lines false none
    simpa [leventsFull] using h
  · intro n
    have h := levents_take lines false none n
    simpa [leventsFull] using h
  · intro line lt h
    simp [list, h]
  · intro ls h
    simp [markdown2html, h]

/-- Witness for C3: the non-list line `"text"` closing an open `ul`, and
the end-of-input flush after the single list line `"- a"`. -/
theorem c3_list_open_close_balance_witness :
    (isListLine "text".data = false ∧
      (list "text".data true (some ['u', 'l'])).1
        = ['<', '/'] ++ optStr (some ['u', 'l']) ++ ['>'] ++ "text".data)
  ∧ ((processFold ["- a".data] false none).2.1 = true ∧
      markdown2html ["- a".data]
        = convert_line (processFold ["- a".data] false none).1
            ++ [['<', '/'] ++ optStr (processFold ["- a".data] false none).2.2 ++ ['>']]) :=
  ⟨⟨by decide,
    (c3_list_open_close_balance []).2.1 "text".data (some ['u', 'l']) (by decide)⟩,
   ⟨by decide,
    (c3_list_open_close_balance []).2.2 ["- a".data] (by decide)⟩⟩

/-! ### Claim C10 -/

theorem countLine_append (t : List Char) (a b : List (List Char)) :
    countLine t (a ++ b) = countLine t a + countLine t b := by
  induction a with
  | nil => simp [countLine]
  | cons x xs ih => simp [countLine, ih]; omega

theorem countLine_take_le (t : List Char) (a : List (List Char)) :
    ∀ n, countLine t (a.take n) ≤ countLine t a := by
  induction a with
  | nil => simp [countLine]
  | cons x xs ih =>
    intro n
    cases n with
    | zero => simp [countLine]
    | succ m =>
      simp only [List.take_succ_cons, countLine]
      have h := ih m
      omega

theorem convert_line_step_count (l : List Char) (p : Bool)
    (hl : l ≠ ['<', '/', 'p', '>']) :
    countLine ['<', '/', 'p', '>'] ((convert_line_step l p).1) ≤ (if p then 1 else 0)
  ∧ countLine ['<', '/', 'p', '>'] ((convert_line_step l p).1)
        + (if (convert_line_step l p).2 then 1 else 0)
      ≤ countLine ['<', 'p', '>'] ((convert_line_step l p).1) + (if p then 1 else 0) := by
  by_cases g1 : (startswith l ['<', 'h'] || startswith l ['<', '/', 'u', 'l', '>']
      || startswith l ['<', '/', 'o', 'l', '>']) = true
  · cases p <;> simp [convert_line_step, g1, countLine, hl]
  · by_cases g2 : (startswith l ['<', 'u', 'l'] || startswith l ['<', 'l', 'i']
        || startswith l ['<', 'o', 'l']) = true
    · cases p <;> simp [convert_line_step, g1, g2, countLine, hl]
    · by_cases g3 : (pyStrip l == []) = true
      · cases p <;> simp [convert_line_step, g1, g2, g3, countLine, hl]
      · cases p <;> simp [convert_line_step, g1, g2, g3, countLine, hl]

theorem convert_line_aux_balance (lines : List (List Char)) :
    ∀ (p : Bool), ['<', '/', 'p', '>'] ∉ lines →
      ∀ n, countLine ['<', '/', 'p', '>'] ((convert_line_aux lines p).take n)
           ≤ countLine ['<', 'p', '>'] ((convert_line_aux lines p).take n)
             + (if p then 1 else 0) := by
  induction lines with
  | nil =>
    intro p hmem n
    cases p
    · simp [convert_line_aux, countLine]
    · cases n with
      | zero => simp [convert_line_aux, countLine]
      | succ m => simp [convert_line_aux, countLine]
  | cons l ls ih =>
    intro p hmem n
    have hl : l ≠ ['<', '/', 'p', '>'] := by
      intro hq
      exact hmem (hq ▸ List.mem_cons_self _ _)
    have hls : ['<', '/', 'p', '>'] ∉ ls := fun hq => hmem (List.mem_cons_of_mem _ hq)
    have hstep := convert_line_step_count l p hl
    have hih := ih (convert_line_step l p).2 hls (n - ((convert_line_step l p).1).length)
    simp only [convert_line_aux]
    rw [List.take_append_eq_append_take, countLine_append, countLine_append]
    rcases le_or_lt n ((convert_line_step l p).1).length with hn | hn
    · rw [Nat.sub_eq_zero_of_le hn]
      simp only [List.take_zero, countLine]
      have h1 := countLine_take_le ['<', '/', 'p', '>'] (convert_line_step l p).1 n
      rcases hstep with ⟨hs1, _⟩
      cases p <;> simp at hs1 ⊢ <;> omega
    · rw [List.take_of_length_le (le_of_lt hn)]
      rcases hstep with ⟨_, hs2⟩
      cases p <;> cases hq : (convert_line_step l _).2 <;>
        rw [hq] at hs2 hih <;> simp at hs2 hih ⊢ <;> omega

/-- Claim C10 counterexample: with the input lines `["a", "</p>"]` (the
second line is paragraph text that happens to read `</p>`), the full
output `["<p>", "a", "<br />", "</p>", "</p>"]` is a prefix of itself in
which the count of `</p>` lines (2) exceeds the count of `<p>` lines (1). -/
theorem c10_counterexample :
    ¬ (countLine ['<', '/', 'p', '>'] ((convert_line [['a'], ['<', '/', 'p', '>']]).take 5)
        ≤ countLine ['<', 'p', '>'] ((convert_line [['a'], ['<', '/', 'p', '>']]).take 5)) := by
  decide

/-- Claim C10 (amended): for every input sequence containing no line that
is literally `</p>` (such a line is passed through as paragraph text, not
emitted as a closing tag), every prefix of the assembler's output has at
most as many `</p>` lines as `<p>` lines; the converse still fails: a
`<p>` may remain permanently unclosed when paragraph text is followed by
a line starting with `<ul`, `<li`, or `<ol`. -/
theorem c10_paragraph_balance :
    (∀ lines : List (List Char), ['<', '/', 'p', '>'] ∉ lines →
      ∀ n, countLine ['<', '/', 'p', '>'] ((convert_line lines).take n)
           ≤ countLine ['<', 'p', '>'] ((convert_line lines).take n))
  ∧ (countLine ['<', 'p', '>'] (convert_line [['h', 'i'], ['<', 'l', 'i', '>']]) = 1
      ∧ countLine ['<', '/', 'p', '>'] (convert_line [['h', 'i'], ['<', 'l', 'i', '>']]) = 0) := by
  constructor
  · intro lines hmem n
    have h := convert_line_aux_balance lines false hmem n
    simpa [convert_line] using h
  · exact ⟨by decide, by decide⟩

/-- Witness for the amended C10 on the single text line `"hi"`. -/
theorem c10_paragraph_balance_witness :
    (['<', '/', 'p', '>'] ∉ [['h', 'i']]) ∧
      countLine ['<', '/', 'p', '>'] ((convert_line [['h', 'i']]).take 3)
        ≤ countLine ['<', 'p', '>'] ((convert_line [['h', 'i']]).take 3) :=
  ⟨by decide, c10_paragraph_balance.1 [['h', 'i']] (by decide) 3⟩

/-! ### Claim C6 -/

theorem findClose_length (u v : Char) :
    ∀ (l content rest : List Char), findClose u v l = some (content, rest) →
      content.length + 2 + rest.length = l.length := by
  intro l
  induction l with
  | nil => intro c r h; simp [findClose] at h
  | cons a t ih =>
    cases t with
    | nil => intro c r h; simp [findClose] at h
    | cons b rr =>
      intro c r h
      by_cases hg : (a == u && b == v) = true
      · simp only [findClose, hg, if_true, Option.some.injEq, Prod.mk.injEq] at h
        obtain ⟨h1, h2⟩ := h
        rw [← h1, ← h2]
        simp only [List.length_nil, List.length_cons]
        omega
      · by_cases hn : (a == '\n') = true
        · simp [findClose, hg, hn] at h
        · rw [show findClose u v (a :: b :: rr)
              = (findClose u v (b :: rr)).map (fun p => (a :: p.1, p.2)) from by
            simp [findClose, hg, hn]] at h
          cases hfc : findClose u v (b :: rr) with
          | none => rw [hfc] at h; simp at h
          | some p =>
            obtain ⟨p1, p2⟩ := p
            rw [hfc] at h
            simp only [Option.map_some', Option.some.injEq, Prod.mk.injEq] at h
            obtain ⟨h1, h2⟩ := h
            have hlen := ih p1 p2 hfc
            rw [← h1, ← h2]
            simp only [List.length_cons] at hlen ⊢
            omega

theorem subssGo_fuel_irrel (x y u v : Char) (f : List Char → List Char) :
    ∀ (fuel1 fuel2 : Nat) (l : List Char), l.length ≤ fuel1 → l.length ≤ fuel2 →
      subssGo x y u v f fuel1 l = subssGo x y u v f fuel2 l := by
  intro fuel1
  induction fuel1 with
  | zero =>
    intro fuel2 l h1 h2
    cases l with
    | nil => simp [subssGo]
    | cons a t =>
      cases t with
      | nil => simp [subssGo]
      | cons b r => simp only [List.length_cons] at h1; omega
  | succ f1 ih =>
    intro fuel2 l h1 h2
    cases l with
    | nil => simp [subssGo]
    | cons a t =>
      cases t with
      | nil => simp [subssGo]
      | cons b r =>
        simp only [List.length_cons] at h1 h2
        obtain ⟨f2, rfl⟩ : ∃ k, fuel2 = k + 1 := ⟨fuel2 - 1, by omega⟩
        simp only [subssGo]
        by_cases hg : (a == x && b == y) = true
        · simp only [hg, if_true]
          cases hfc : findClose u v r with
          | none =>
            dsimp only
            have hb : (b :: r).length ≤ f1 := by simp; omega
            have hb2 : (b :: r).length ≤ f2 := by simp; omega
            rw [ih f2 (b :: r) hb hb2]
          | some p =>
            obtain ⟨p1, p2⟩ := p
            dsimp only
            have hlen := findClose_length u v r p1 p2 hfc
            have hb : p2.length ≤ f1 := by omega
            have hb2 : p2.length ≤ f2 := by omega
            rw [ih f2 p2 hb hb2]
        · simp only [hg, Bool.false_eq_true, if_false]
          have hb : (b :: r).length ≤ f1 := by simp; omega
          have hb2 : (b :: r).length ≤ f2 := by simp; omega
          rw [ih f2 (b :: r) hb hb2]

theorem subssGo_no_match (x y u v : Char) (f : List Char → List Char) :
    ∀ (fuel : Nat) (l : List Char), hasDelimMatch x y u v l = false →
      subssGo x y u v f fuel l = l := by
  intro fuel
  induction fuel with
  | zero =>
    intro l _
    cases l with
    | nil => rfl
    | cons a t =>
      cases t with
      | nil => rfl
      | cons b r => rfl
  | succ f1 ih =>
    intro l h
    cases l with
    | nil => rfl
    | cons a t =>
      cases t with
      | nil => rfl
      | cons b r =>
        simp only [hasDelimMatch, Bool.or_eq_false_iff] at h
        obtain ⟨h1, h2⟩ := h
        by_cases hg : (a == x && b == y) = true
        · obtain ⟨ha, hb⟩ := Bool.and_eq_true_iff.mp hg
          rw [ha, hb] at h1
          simp only [Bool.true_and] at h1
          cases hfc : findClose u v r with
          | some p => rw [hfc] at h1; simp at h1
          | none =>
            simp only [subssGo, hg, if_true, hfc]
            rw [ih _ h2]
        · simp only [subssGo, hg, Bool.false_eq_true, if_false]
          rw [ih _ h2]

theorem findClose_mid (u v : Char) (post : List Char) :
    ∀ content, '\n' ∉ content → hasPair u v (content ++ [u]) = false →
      findClose u v (content ++ (u :: v :: post)) = some (content, post) := by
  intro content
  induction content with
  | nil => intro _ _; simp [findClose]
  | cons c cs ih =>
    intro hn hp
    have hcn : (c == '\n') = false := by
      simp only [List.mem_cons, not_or] at hn
      simp only [beq_eq_false_iff_ne, ne_eq]
      exact fun hq => hn.1 hq.symm
    have hn2 : '\n' ∉ cs := by
      simp only [List.mem_cons, not_or] at hn
      exact hn.2
    cases cs with
    | nil =>
      have hc : (c == u && u == v) = false := by
        simp only [List.cons_append, List.nil_append, hasPair] at hp
        simpa using hp
      show findClose u v (c :: (u :: v :: post)) = some ([c], post)
      simp [findClose, hc, hcn]
    | cons b bs =>
      simp only [List.cons_append, hasPair, Bool.or_eq_false_iff] at hp
      have hrec := ih hn2 (by simpa [List.cons_append] using hp.2)
      show findClose u v (c :: ((b :: bs) ++ (u :: v :: post))) = some (c :: b :: bs, post)
      have hguard : (c == u && b == v) = false := hp.1
      simp only [List.cons_append] at hrec ⊢
      simp [findClose, hguard, hcn, hrec]

theorem subss_span (x y u v : Char) (f : List Char → List Char) :
    ∀ (pre content post : List Char),
      hasPair x y (pre ++ [x]) = false →
      '\n' ∉ content →
      hasPair u v (content ++ [u]) = false →
      subss x y u v f (pre ++ (x :: y :: (content ++ (u :: v :: post))))
        = pre ++ f content ++ subss x y u v f post := by
  intro pre
  induction pre with
  | nil =>
    intro content post _ hn hcl
    show subssGo x y u v f
        ((x :: y :: (content ++ (u :: v :: post))).length)
        (x :: y :: (content ++ (u :: v :: post)))
      = [] ++ f content ++ subss x y u v f post
    rw [show (x :: y :: (content ++ (u :: v :: post))).length
        = (content ++ (u :: v :: post)).length + 1 + 1 from rfl]
    have hfc := findClose_mid u v post content hn hcl
    simp only [subssGo, beq_self_eq_true, Bool.and_self, if_true, hfc]
    simp only [List.nil_append]
    congr 1
    show subssGo x y u v f ((content ++ (u :: v :: post)).length + 1) post
        = subssGo x y u v f post.length post
    apply subssGo_fuel_irrel
    · simp [List.length_append]; omega
    · exact le_refl _
  | cons c pre' ih =>
    intro content post hpre hn hcl
    cases pre' with
    | nil =>
      have hg : (c == x && x == y) = false := by
        simpa [hasPair] using hpre
      show subssGo x y u v f
          ((c :: x :: y :: (content ++ (u :: v :: post))).length)
          (c :: x :: y :: (content ++ (u :: v :: post)))
        = [c] ++ f content ++ subss x y u v f post
      rw [show (c :: x :: y :: (content ++ (u :: v :: post))).length
          = (x :: y :: (content ++ (u :: v :: post))).length + 1 from rfl]
      simp only [subssGo, hg, Bool.false_eq_true, if_false]
      have hih := ih content post (by simp [hasPair]) hn hcl
      simp only [List.nil_append] at hih
      show c :: subss x y u v f (x :: y :: (content ++ (u :: v :: post)))
          = [c] ++ f content ++ subss x y u v f post
      rw [hih]
      rfl
    | cons d pre'' =>
      have hp2 : (c == x && d == y) = false
          ∧ hasPair x y ((d :: pre'') ++ [x]) = false := by
        simpa [hasPair, Bool.or_eq_false_iff] using hpre
      show subssGo x y u v f
          ((c :: d :: (pre'' ++ (x :: y :: (content ++ (u :: v :: post))))).length)
          (c :: d :: (pre'' ++ (x :: y :: (content ++ (u :: v :: post)))))
        = (c :: d :: pre'') ++ f content ++ subss x y u v f post
      rw [show (c :: d :: (pre'' ++ (x :: y :: (content ++ (u :: v :: post))))).length
          = (d :: (pre'' ++ (x :: y :: (content ++ (u :: v :: post))))).length + 1 from rfl]
      simp only [subssGo, hp2.1, Bool.false_eq_true, if_false]
      have hih := ih content post hp2.2 hn hcl
      show c :: subss x y u v f ((d :: pre'') ++ (x :: y :: (content ++ (u :: v :: post))))
          = (c :: d :: pre'') ++ f content ++ subss x y u v f post
      rw [hih]
      rfl

/-- Claim C6: every span delimited by double parentheses `((CONTENT))` in
a line is replaced by CONTENT with every `'c'` and `'C'` deleted and all
other characters untouched.  Stated for a span with arbitrary surrounding
text: the text before the span holds no earlier `((` opener (the
left-to-right scan would consume the span's delimiters otherwise), the
content holds no newline and no closing `))` pair — nor a trailing `')'`
that would form one, per the non-greedy shortest match — and no
hash-substitution directive `[[…]]` matches anywhere in the line (an
unmatched `[[` opener is fine); the scan then continues over the text
after the span, replacing further spans likewise.  In particular
`"((Cool))"` rewrites to `"ool"` and `"x((Cool))y((C))z"` to `"xoolyz"`. -/
theorem c6_paren_directive :
    (∀ pre content post : List Char,
      hasDelimMatch '[' '[' ']' ']'
          (pre ++ ('(' :: '(' :: (content ++ (')' :: ')' :: post)))) = false →
      hasPair '(' '(' (pre ++ ['(']) = false →
      '\n' ∉ content →
      hasPair ')' ')' (content ++ [')']) = false →
      remove_character (pre ++ ('(' :: '(' :: (content ++ (')' :: ')' :: post))))
        = pre ++ ((content.filter (fun c => c != 'c')).filter (fun c => c != 'C'))
            ++ subss '(' '(' ')' ')'
                (fun m => (m.filter (fun c => c != 'c')).filter (fun c => c != 'C')) post)
  ∧ remove_character "((Cool))".data = "ool".data
  ∧ remove_character "x((Cool))y((C))z".data = "xoolyz".data := by
  refine ⟨?_, by decide, by decide⟩
  intro pre content post h0 h1 h2 h3
  unfold remove_character
  rw [show subss '[' '[' ']' ']' (fun m => md5_hash m)
      (pre ++ ('(' :: '(' :: (content ++ (')' :: ')' :: post))))
        = pre ++ ('(' :: '(' :: (content ++ (')' :: ')' :: post)))
    from subssGo_no_match '[' '[' ']' ']' _ _ _ h0]
  exact subss_span '(' '(' ')' ')' _ pre content post h1 h2 h3

/-- Witness for C6: the span `((Cool))` with surrounding text
`"x" … "y"`. -/
theorem c6_paren_directive_witness :
    hasDelimMatch '[' '[' ']' ']'
        ("x".data ++ ('(' :: '(' :: ("Cool".data ++ (')' :: ')' :: "y".data)))) = false
  ∧ hasPair '(' '(' ("x".data ++ ['(']) = false
  ∧ ('\n' ∉ "Cool".data)
  ∧ hasPair ')' ')' ("Cool".data ++ [')']) = false
  ∧ remove_character ("x".data ++ ('(' :: '(' :: ("Cool".data ++ (')' :: ')' :: "y".data))))
      = "x".data ++ (("Cool".data.filter (fun c => c != 'c')).filter (fun c => c != 'C'))
          ++ subss '(' '(' ')' ')'
              (fun m => (m.filter (fun c => c != 'c')).filter (fun c => c != 'C')) "y".data :=
  ⟨by decide, by decide, by decide, by decide,
   c6_paren_directive.1 "x".data "Cool".data "y".data
     (by decide) (by decide) (by decide) (by decide)⟩

/-! ### Claim C7 -/

theorem word2hex_length (w : Nat) : (word2hex w).length = 8 := rfl

theorem md5_hash_length (content : List Char) : (md5_hash content).length = 32 := by
  unfold md5_hash
  simp [List.length_append, word2hex_length]

theorem hexDigit_mem {n : Nat} (h : n < 16) :
    ("0123456789abcdef".data).contains (hexDigit n) = true := by
  interval_cases n <;> decide

theorem byteHex_mem {b : Nat} (h : b < 256) :
    ∀ ch ∈ byteHex b, ("0123456789abcdef".data).contains ch = true := by
  intro ch hch
  simp only [byteHex, List.mem_cons, List.not_mem_nil, or_false] at hch
  rcases hch with rfl | rfl
  · exact hexDigit_mem (by omega)
  · exact hexDigit_mem (by omega)

theorem word2hex_mem (w : Nat) :
    ∀ ch ∈ word2hex w, ("0123456789abcdef".data).contains ch = true := by
  intro ch hch
  simp only [word2hex, List.mem_append] at hch
  rcases hch with ((h | h) | h) | h <;>
    exact byteHex_mem (Nat.mod_lt _ (by norm_num)) _ h

theorem md5words_bounds (content : List Char) :
    (md5words content).1 < M32 ∧ (md5words content).2.1 < M32
      ∧ (md5words content).2.2.1 < M32 ∧ (md5words content).2.2.2 < M32 := by
  have key : ∀ (chunks : List (List Nat)) (st : Nat × Nat × Nat × Nat),
      st.1 < M32 → st.2.1 < M32 → st.2.2.1 < M32 → st.2.2.2 < M32 →
      ((chunks.foldl (fun st chunk => md5Compress st (toWords chunk)) st).1 < M32
        ∧ (chunks.foldl (fun st chunk => md5Compress st (toWords chunk)) st).2.1 < M32
        ∧ (chunks.foldl (fun st chunk => md5Compress st (toWords chunk)) st).2.2.1 < M32
        ∧ (chunks.foldl (fun st chunk => md5Compress st (toWords chunk)) st).2.2.2 < M32) := by
    intro chunks
    induction chunks with
    | nil => intro st h1 h2 h3 h4; exact ⟨h1, h2, h3, h4⟩
    | cons c cs ih =>
      intro st _ _ _ _
      simp only [List.foldl_cons]
      apply ih <;> · simp only [md5Compress]; exact Nat.mod_lt _ (by norm_num [M32])
  unfold md5words
  exact key _ _ (by norm_num [M32]) (by norm_num [M32]) (by norm_num [M32]) (by norm_num [M32])

/-- Claim C7 (amended): the hash substitution is deterministic (in this
embedding `md5_hash` is a pure function of CONTENT, so two runs on the
same input trivially agree) and always produces a fixed-length
32-character string of lowercase hexadecimal characters; but the digests
do NOT differ for every pair of differing CONTENT values — MD5 has
finitely many possible digests, so collisions exist. -/
theorem c7_md5_format (content : List Char) :
    md5_hash content = md5_hash content
  ∧ (md5_hash content).length = 32
  ∧ (md5_hash content).all (fun ch => ("0123456789abcdef".data).contains ch) = true := by
  refine ⟨rfl, md5_hash_length content, ?_⟩
  rw [List.all_eq_true]
  intro ch hch
  unfold md5_hash at hch
  simp only [List.mem_append] at hch
  rcases hch with ((h | h) | h) | h <;> exact word2hex_mem _ _ h

/-- Claim C7 counterexample: it is not the case that differing CONTENT
values always produce differing digests: `md5_hash` maps the infinitely
many possible contents into the finite set of 32-character hex strings
(equivalently, four 32-bit state words), so two distinct contents share
a digest. -/
theorem c7_counterexample :
    ¬ ∀ c1 c2 : List Char, c1 ≠ c2 → md5_hash c1 ≠ md5_hash c2 := by
  intro h
  have hinj : Function.Injective md5_hash := by
    intro a b hab
    by_contra hne
    exact h a b hne hab
  let enc : List Char → Fin M32 × Fin M32 × Fin M32 × Fin M32 := fun c =>
    (⟨(md5words c).1, (md5words_bounds c).1⟩,
     ⟨(md5words c).2.1, (md5words_bounds c).2.1⟩,
     ⟨(md5words c).2.2.1, (md5words_bounds c).2.2.1⟩,
     ⟨(md5words c).2.2.2, (md5words_bounds c).2.2.2⟩)
  obtain ⟨a, b, hne, heq⟩ := Finite.exists_ne_map_eq_of_infinite enc
  apply hne
  apply hinj
  have h1 := congrArg (fun q => q.1.val) heq
  have h2 := congrArg (fun q => q.2.1.val) heq
  have h3 := congrArg (fun q => q.2.2.1.val) heq
  have h4 := congrArg (fun q => q.2.2.2.val) heq
  simp only [enc] at h1 h2 h3 h4
  have hw : md5words a = md5words b :=
    Prod.ext_iff.mpr ⟨h1, Prod.ext_iff.mpr ⟨h2, Prod.ext_iff.mpr ⟨h3, h4⟩⟩⟩
  show md5_hash a = md5_hash b
  unfold md5_hash
  rw [hw]

end Markdown2HTML
